import Mathlib

/-!
Verification of the Session & Geofence Tracking Engine specified for the
Geofence_Cerevyn repository.  The repository under `src/` is the browser UI
only; the backend engine (GeoMath, SessionStore, GeofenceEngine,
LocationIngestor, PolylineLog) is specified as a contract in `spec.md` and is
absent from the repository, so those components are modelled here from the
spec's words.  The client-side throttling logic is embedded from
`src/frontend/my-react-app/src/components/UserTracking.jsx`, which is real
repository code.
-/

open Classical

/-- Modelled from the spec: a coordinate pair (GeoMath inputs are
latitude/longitude pairs).  The backend holding this type (`app.py`) is not in
the repository. -/
structure Coordinate where
  lat : ℝ
  lng : ℝ

/-- Modelled from the spec: inputs are valid coordinate pairs with
lat ∈ [-90,90] and lng ∈ [-180,180]. -/
def validCoordinate (p : Coordinate) : Prop :=
  -90 ≤ p.lat ∧ p.lat ≤ 90 ∧ -180 ≤ p.lng ∧ p.lng ≤ 180

/-- Mean Earth radius in meters, the standard constant of the haversine
formula. -/
def EARTH_RADIUS_M : ℝ := 6371000

/-- Degrees to radians. -/
noncomputable def rad (deg : ℝ) : ℝ := deg * Real.pi / 180

/-- The haversine of an angle, sin²(x/2). -/
noncomputable def hav (x : ℝ) : ℝ := Real.sin (x / 2) ^ 2

/-- Modelled from the spec: great-circle (haversine) distance between two
coordinate pairs, in meters.  The backend implementing it is not in the
repository. -/
noncomputable def haversine (p q : Coordinate) : ℝ :=
  2 * EARTH_RADIUS_M * Real.arcsin (Real.sqrt
    (hav (rad (q.lat - p.lat)) +
      Real.cos (rad p.lat) * Real.cos (rad q.lat) * hav (rad (q.lng - p.lng))))

/-- Modelled from the spec: error taxonomy of the engine's public operations. -/
inductive EngineError where
  | InvalidCoordinate
  | SessionAlreadyActive
  | SessionNotFound
  | SessionClosed
  | SessionAlreadyClosed
deriving DecidableEq

/-- Modelled from the spec: `distanceMeters(a, b)` — great-circle distance for
valid coordinate pairs, failing with `InvalidCoordinate` otherwise. -/
noncomputable def distanceMeters (p q : Coordinate) : Except EngineError ℝ :=
  if validCoordinate p ∧ validCoordinate q then .ok (haversine p q)
  else .error .InvalidCoordinate

/-- Modelled from the spec: a circular region, center plus radius in meters. -/
structure GeoCircle where
  center : Coordinate
  radiusM : ℝ

/-- Modelled from the spec: `contains(circle, point)` holds iff the
great-circle distance from the center to the point is at most the radius
(boundary inclusive). -/
def contains (c : GeoCircle) (p : Coordinate) : Prop :=
  haversine c.center p ≤ c.radiusM

/-- Modelled from the spec: session lifecycle state, Active or Closed. -/
inductive SessionState where
  | Active
  | Closed
deriving DecidableEq

/-- Modelled from the spec: a tracking Session record — identifier, employee
id, state, start time/position, end time/position (set only on Closed),
cumulative distance, last-known position and last-seen timestamp. -/
structure Session where
  sessionId : ℕ
  employeeId : ℕ
  state : SessionState
  startTime : ℤ
  startPos : Coordinate
  endTime : Option ℤ
  endPos : Option Coordinate
  distance : ℝ
  lastPosition : Coordinate
  lastSeenTimestamp : ℤ

/-- Modelled from the spec: the SessionStore owns all Session records, keyed
by session identifier; `nextId` supplies fresh identifiers. -/
structure SessionStore where
  sessions : List Session
  nextId : ℕ

/-- The store with no sessions. -/
def emptyStore : SessionStore := ⟨[], 0⟩

/-- Modelled from the spec: `get(sessionId) -> Session | NotFound`. -/
def getSession (st : SessionStore) (sid : ℕ) : Option Session :=
  st.sessions.find? (fun s => s.sessionId == sid)

/-- Modelled from the spec: `activeSessionFor(employeeId) -> Session | none`. -/
def activeSessionFor (st : SessionStore) (emp : ℕ) : Option Session :=
  st.sessions.find?
    (fun s => s.employeeId == emp && decide (s.state = SessionState.Active))

/-- Updates the session with the given id in place, leaving the rest of the
store unchanged. -/
def setSession (st : SessionStore) (sid : ℕ) (f : Session → Session) :
    SessionStore :=
  { st with sessions := st.sessions.map (fun s => if s.sessionId == sid then f s else s) }

/-- A freshly created session: Active, start time = now, start position,
distance = 0. -/
def newSession (sid emp : ℕ) (pos : Coordinate) (now : ℤ) : Session :=
  { sessionId := sid, employeeId := emp, state := .Active, startTime := now,
    startPos := pos, endTime := none, endPos := none, distance := 0,
    lastPosition := pos, lastSeenTimestamp := now }

/-- Modelled from the spec: `startSession` fails with `SessionAlreadyActive`
if the employee already has an Active session; otherwise creates a Session in
Active state with start time = now, the given start position and distance 0. -/
def startSession (st : SessionStore) (emp : ℕ) (pos : Coordinate) (now : ℤ) :
    Except EngineError (SessionStore × ℕ) :=
  match activeSessionFor st emp with
  | some _ => .error .SessionAlreadyActive
  | none =>
    .ok ({ sessions := newSession st.nextId emp pos now :: st.sessions,
           nextId := st.nextId + 1 }, st.nextId)

/-- Modelled from the spec: the outcome `recordMovement` reports to its
caller — `rejected` is the stale-timestamp no-op (distance delta 0),
`accepted` carries the distance delta added to the cumulative distance. -/
inductive MovementResult where
  | rejected
  | accepted (delta : ℝ)

/-- The in-place session mutation of an accepted movement: add the haversine
distance from the last position, update lastPosition and lastSeenTimestamp. -/
noncomputable def moveUpdate (pos : Coordinate) (ts : ℤ) (s : Session) :
    Session :=
  { s with
    distance := s.distance + haversine s.lastPosition pos,
    lastPosition := pos, lastSeenTimestamp := ts }

/-- Modelled from the spec: `recordMovement(sessionId, position, timestamp)`
fails with `SessionNotFound` or `SessionClosed`; rejects (no-op, delta 0) if
the timestamp is not strictly greater than the session's last-seen timestamp;
otherwise adds `distanceMeters(lastPosition, position)` to the cumulative
distance and updates lastPosition/lastSeenTimestamp. -/
noncomputable def recordMovement (st : SessionStore) (sid : ℕ)
    (pos : Coordinate) (ts : ℤ) :
    Except EngineError (SessionStore × MovementResult) :=
  match getSession st sid with
  | none => .error .SessionNotFound
  | some s =>
    if s.state = SessionState.Closed then .error .SessionClosed
    else if ts ≤ s.lastSeenTimestamp then .ok (st, .rejected)
    else .ok (setSession st sid (moveUpdate pos ts),
      .accepted (haversine s.lastPosition pos))

/-- The in-place session mutation of checkout: state Closed, end time and end
position set. -/
def closeUpdate (endPos : Coordinate) (now : ℤ) (s : Session) : Session :=
  { s with state := .Closed, endTime := some now, endPos := some endPos }

/-- Modelled from the spec: `closeSession(sessionId, endPosition)` fails with
`SessionNotFound` or `SessionAlreadyClosed`; otherwise sets state Closed, end
time = now, end position, and finalizes the cumulative distance. -/
def closeSession (st : SessionStore) (sid : ℕ) (endPos : Coordinate)
    (now : ℤ) : Except EngineError (SessionStore × Session) :=
  match getSession st sid with
  | none => .error .SessionNotFound
  | some s =>
    if s.state = SessionState.Closed then .error .SessionAlreadyClosed
    else .ok (setSession st sid (closeUpdate endPos now), closeUpdate endPos now s)

/-- Modelled from the spec: GeofenceStatus state — Pending, or Entered with
the entered timestamp recorded exactly once. -/
inductive GStatus where
  | Pending
  | Entered (enteredAt : ℤ)
deriving DecidableEq

/-- Modelled from the spec: a GeofenceAssignment binds an employee to a
geofence for a specific date. -/
structure GeofenceAssignment where
  assignmentId : ℕ
  employeeId : ℕ
  geofenceId : ℕ
  assignedDate : ℕ

/-- Modelled from the spec: `assignmentsFor(employeeId, date)` — the
assignments due for this employee on this date, from the external registry. -/
def assignmentsFor (assigns : List GeofenceAssignment) (emp date : ℕ) :
    List GeofenceAssignment :=
  assigns.filter (fun a => a.employeeId == emp && a.assignedDate == date)

/-- Modelled from the spec: the loop body of `GeofenceEngine.evaluate` — for
each assignment with status Pending whose geofence circle contains the
position, transition to Entered (recording the timestamp) and include its id
in the newly-entered result list; already-Entered assignments are skipped. -/
noncomputable def evalLoop (registry : ℕ → GeoCircle) (pos : Coordinate)
    (now : ℤ) :
    List GeofenceAssignment → (ℕ → GStatus) → ((ℕ → GStatus) × List ℕ)
  | [], st => (st, [])
  | a :: rest, st =>
    if st a.assignmentId = GStatus.Pending ∧ contains (registry a.geofenceId) pos
    then
      let r := evalLoop registry pos now rest
        (fun i => if i = a.assignmentId then GStatus.Entered now else st i)
      (r.1, a.assignmentId :: r.2)
    else evalLoop registry pos now rest st

/-- Modelled from the spec: `evaluate(employeeId, position, date)` over the
GeofenceStatus table — runs the containment test for every assignment due
today and returns the updated table plus the newly-entered assignment ids. -/
noncomputable def evaluate (registry : ℕ → GeoCircle)
    (assigns : List GeofenceAssignment) (emp : ℕ) (pos : Coordinate)
    (date : ℕ) (now : ℤ) (st : ℕ → GStatus) : (ℕ → GStatus) × List ℕ :=
  evalLoop registry pos now (assignmentsFor assigns emp date) st

/-- A day's worth of `evaluate` calls: fold the status table through a list of
(position, timestamp) updates, collecting each call's newly-entered list. -/
noncomputable def runEvals (registry : ℕ → GeoCircle)
    (assigns : List GeofenceAssignment) (emp date : ℕ) :
    List (Coordinate × ℤ) → (ℕ → GStatus) → ((ℕ → GStatus) × List (List ℕ))
  | [], st => (st, [])
  | (pos, now) :: rest, st =>
    let e := evaluate registry assigns emp pos date now st
    let r := runEvals registry assigns emp date rest e.1
    (r.1, e.2 :: r.2)

/-- How many of the per-evaluation reports fired a given assignment id. -/
def countFires (i : ℕ) (reports : List (List ℕ)) : ℕ :=
  (reports.map (fun l => l.count i)).sum

/-- The report sequence the spec predicts for a single Pending assignment
walked along a path: empty reports until the first position inside the
circle, a singleton report there, and empty reports ever after. -/
noncomputable def expectedReports (c : GeoCircle) (i : ℕ) :
    List Coordinate → List (List ℕ)
  | [] => []
  | p :: rest =>
    if contains c p then [i] :: rest.map (fun _ => ([] : List ℕ))
    else [] :: expectedReports c i rest

/-- Modelled from the spec: a PolylinePoint — session id, sequence index,
position, timestamp. -/
structure PolylinePoint where
  sessionId : ℕ
  seq : ℕ
  pos : Coordinate
  timestamp : ℤ

/-- Modelled from the spec: the polyline rate limit, 60 seconds. -/
def POLYLINE_MIN_INTERVAL : ℤ := 60

/-- Modelled from the spec: `pointsFor(sessionId)` — the ordered sequence of
polyline points recorded for one session. -/
def pointsFor (log : List PolylinePoint) (sid : ℕ) : List PolylinePoint :=
  log.filter (fun p => p.sessionId == sid)

/-- The most recently appended polyline point of a session, if any. -/
def lastPointFor (log : List PolylinePoint) (sid : ℕ) : Option PolylinePoint :=
  (pointsFor log sid).getLast?

/-- Modelled from the spec: `maybeAppend(sessionId, position, timestamp)` —
appends a PolylinePoint only if no point has been appended for this session in
the last `POLYLINE_MIN_INTERVAL` seconds (by timestamp), or if this is the
session's first point; returns whether it appended. -/
def maybeAppend (log : List PolylinePoint) (sid : ℕ) (pos : Coordinate)
    (ts : ℤ) : List PolylinePoint × Bool :=
  match lastPointFor log sid with
  | none => (log ++ [⟨sid, 0, pos, ts⟩], true)
  | some lastP =>
    if POLYLINE_MIN_INTERVAL ≤ ts - lastP.timestamp
    then (log ++ [⟨sid, lastP.seq + 1, pos, ts⟩], true)
    else (log, false)

/-- Modelled from the spec: the point recorded unconditionally at checkout,
the one permitted exception (besides a session's first point) to the
60-second spacing invariant. -/
def recordCheckoutPoint (log : List PolylinePoint) (sid : ℕ)
    (pos : Coordinate) (ts : ℤ) : List PolylinePoint :=
  log ++ [⟨sid, (pointsFor log sid).length, pos, ts⟩]

/-- Consecutive points are at least `POLYLINE_MIN_INTERVAL` apart by
timestamp. -/
def spaced (l : List PolylinePoint) : Prop :=
  List.Chain' (fun p q => POLYLINE_MIN_INTERVAL ≤ q.timestamp - p.timestamp) l

/-- Polyline logs reachable through `maybeAppend` alone, from the empty log. -/
inductive LogReachable : List PolylinePoint → Prop where
  | init : LogReachable []
  | app (log : List PolylinePoint) (sid : ℕ) (pos : Coordinate) (ts : ℤ) :
      LogReachable log → LogReachable (maybeAppend log sid pos ts).1

/-- Modelled from the spec: the whole engine state the LocationIngestor fans
out to — the session store, the GeofenceStatus table, the polyline log, plus
the externally supplied assignment list and geofence registry. -/
structure EngineState where
  store : SessionStore
  statuses : ℕ → GStatus
  polylog : List PolylinePoint
  assigns : List GeofenceAssignment
  registry : ℕ → GeoCircle

/-- Modelled from the spec: the result returned to the caller of an ingested
update — `{accepted, geofencesEntered, polylineLogged}`. -/
structure IngestResult where
  accepted : Bool
  geofencesEntered : List ℕ
  polylineLogged : Bool
deriving DecidableEq

/-- Modelled from the spec: `LocationIngestor.update` — (1) validate the
session exists and is Active, (2) validate coordinates, (3) call
`recordMovement` (stopping, as the dedup short-circuit, if it reports
rejected), (4) call `GeofenceEngine.evaluate` on every accepted update,
(5) call `PolylineLog.maybeAppend`, and (6) return
`{accepted, geofencesEntered, polylineLogged}`. -/
noncomputable def ingestorUpdate (es : EngineState) (sid : ℕ)
    (pos : Coordinate) (ts : ℤ) (date : ℕ) :
    Except EngineError (EngineState × IngestResult) :=
  match getSession es.store sid with
  | none => .error .SessionNotFound
  | some s =>
    if s.state = SessionState.Closed then .error .SessionClosed
    else if validCoordinate pos then
      match recordMovement es.store sid pos ts with
      | .error e => .error e
      | .ok (store1, MovementResult.rejected) =>
        .ok ({ es with store := store1 }, ⟨false, [], false⟩)
      | .ok (store1, MovementResult.accepted _) =>
        let ev := evaluate es.registry es.assigns s.employeeId pos date ts
          es.statuses
        let pl := maybeAppend es.polylog sid pos ts
        .ok ({ es with store := store1, statuses := ev.1, polylog := pl.1 },
          ⟨true, ev.2, pl.2⟩)
    else .error .InvalidCoordinate

/-- Fold `recordMovement` over a list of (position, timestamp) updates. -/
noncomputable def runMovements :
    SessionStore → ℕ → List (Coordinate × ℤ) → Except EngineError SessionStore
  | st, _, [] => .ok st
  | st, sid, (pos, ts) :: rest =>
    match recordMovement st sid pos ts with
    | .error e => .error e
    | .ok (st1, _) => runMovements st1 sid rest

/-- The sum of the haversine distances between consecutive points of a path
starting at `p`. -/
noncomputable def pathSum : Coordinate → List Coordinate → ℝ
  | _, [] => 0
  | p, q :: rest => haversine p q + pathSum q rest

/-- How many sessions of the store are Active for a given employee. -/
def countActive (st : SessionStore) (emp : ℕ) : ℕ :=
  st.sessions.countP
    (fun s => s.employeeId == emp && decide (s.state = SessionState.Active))

/-- Session stores reachable from the empty store through the SessionStore
operations. -/
inductive Reachable : SessionStore → Prop where
  | init : Reachable emptyStore
  | start (st st' : SessionStore) (emp : ℕ) (pos : Coordinate) (now : ℤ)
      (sid : ℕ) : Reachable st → startSession st emp pos now = .ok (st', sid) →
      Reachable st'
  | move (st st' : SessionStore) (sid : ℕ) (pos : Coordinate) (ts : ℤ)
      (r : MovementResult) : Reachable st →
      recordMovement st sid pos ts = .ok (st', r) → Reachable st'
  | close (st st' : SessionStore) (sid : ℕ) (pos : Coordinate) (now : ℤ)
      (s : Session) : Reachable st →
      closeSession st sid pos now = .ok (st', s) → Reachable st'

/-- From `UserTracking.jsx`: the client sends a location update at most every
`UPDATE_INTERVAL_MS` = 10000 milliseconds. -/
def UPDATE_INTERVAL_MS : ℤ := 10000

/-- From `UserTracking.jsx`: the state the geolocation watch callback closes
over — `lastUpdateTime` (initially 0) and the on-screen marker position. -/
structure TrackState where
  lastUpdateTime : ℤ
  markerPos : Option Coordinate

/-- From `UserTracking.jsx` (`startTracking`): on every geolocation event the
callback sets the marker to the new position, then sends a POST — returning
`true` — only if `now - lastUpdateTime >= UPDATE_INTERVAL_MS`, in which case
`lastUpdateTime` is set to `now`. -/
def watchStep (st : TrackState) (now : ℤ) (pos : Coordinate) :
    TrackState × Bool :=
  if UPDATE_INTERVAL_MS ≤ now - st.lastUpdateTime
  then ({ lastUpdateTime := now, markerPos := some pos }, true)
  else ({ st with markerPos := some pos }, false)

/-- Run the watch callback over a list of (client time, position) events,
collecting the client times at which a network update was sent. -/
def runWatch : TrackState → List (ℤ × Coordinate) → TrackState × List ℤ
  | st, [] => (st, [])
  | st, (now, p) :: rest =>
    let r := watchStep st now p
    let rec1 := runWatch r.1 rest
    (rec1.1, if r.2 then now :: rec1.2 else rec1.2)

theorem hav_zero : hav 0 = 0 := by
  simp [hav]

theorem rad_zero : rad 0 = 0 := by
  simp [rad]

theorem hav_rad_sub_symm (x y : ℝ) : hav (rad (x - y)) = hav (rad (y - x)) := by
  have h : rad (x - y) / 2 = -(rad (y - x) / 2) := by
    simp only [rad]; ring
  simp only [hav, h, Real.sin_neg, neg_sq]

theorem haversine_self (p : Coordinate) : haversine p p = 0 := by
  simp [haversine, sub_self, rad_zero, hav_zero]

theorem haversine_comm (p q : Coordinate) : haversine p q = haversine q p := by
  unfold haversine
  rw [hav_rad_sub_symm q.lat p.lat, hav_rad_sub_symm q.lng p.lng,
    mul_comm (Real.cos (rad p.lat)) (Real.cos (rad q.lat))]

theorem haversine_nonneg (p q : Coordinate) : 0 ≤ haversine p q := by
  unfold haversine
  have h1 : (0 : ℝ) ≤ 2 * EARTH_RADIUS_M := by norm_num [EARTH_RADIUS_M]
  exact mul_nonneg h1 (Real.arcsin_nonneg.mpr (Real.sqrt_nonneg _))

/-- The antipodal-longitude pair used by concrete witnesses: the haversine
distance from (0°, 180°) to (0°, 0°) is exactly π times the Earth radius. -/
theorem haversine_antipodal :
    haversine ⟨0, 180⟩ ⟨0, 0⟩ = EARTH_RADIUS_M * Real.pi := by
  have hrad : rad (0 - 180) = -Real.pi := by
    simp [rad]; ring
  have hhav : hav (-Real.pi) = 1 := by
    have : (-Real.pi) / 2 = -(Real.pi / 2) := by ring
    simp [hav, this, Real.sin_neg, Real.sin_pi_div_two]
  simp only [haversine, sub_self, sub_zero, hrad, rad_zero, hav_zero, hhav,
    Real.cos_zero, one_mul, zero_add, Real.sqrt_one, Real.arcsin_one]
  ring

/-- The antipodal-longitude pair is farther than 150 meters. -/
theorem haversine_antipodal_gt :
    (150 : ℝ) < haversine ⟨0, 180⟩ ⟨0, 0⟩ := by
  rw [haversine_antipodal]
  have hpi : (3 : ℝ) < Real.pi := Real.pi_gt_three
  have : (150 : ℝ) < EARTH_RADIUS_M * 3 := by norm_num [EARTH_RADIUS_M]
  calc (150 : ℝ) < EARTH_RADIUS_M * 3 := this
    _ < EARTH_RADIUS_M * Real.pi := by
        have hR : (0 : ℝ) < EARTH_RADIUS_M := by norm_num [EARTH_RADIUS_M]
        exact (mul_lt_mul_left hR).mpr hpi

/-- C9: for valid coordinate pairs, `distanceMeters(p,p) = 0`,
`distanceMeters` is symmetric (hence deterministic and pure, being a
function), and it fails with `InvalidCoordinate` exactly on inputs outside the
valid ranges. -/
theorem distanceMeters_spec (p q : Coordinate)
    (hp : validCoordinate p) (hq : validCoordinate q) :
    distanceMeters p p = .ok 0 ∧
    distanceMeters p q = distanceMeters q p ∧
    (∀ a b : Coordinate, distanceMeters a b = .error .InvalidCoordinate ↔
      ¬ (validCoordinate a ∧ validCoordinate b)) := by
  refine ⟨?_, ?_, ?_⟩
  · rw [distanceMeters, if_pos ⟨hp, hp⟩, haversine_self]
  · rw [distanceMeters, if_pos ⟨hp, hq⟩, distanceMeters, if_pos ⟨hq, hp⟩,
      haversine_comm]
  · intro a b
    constructor
    · intro h hv
      rw [distanceMeters, if_pos hv] at h
      exact Except.noConfusion h
    · intro hv
      rw [distanceMeters, if_neg hv]

/-- Witness for C9 at the concrete valid pair (0°,0°) and (0°,180°). -/
theorem distanceMeters_spec_witness :
    distanceMeters ⟨0, 0⟩ ⟨0, 0⟩ = .ok 0 ∧
    distanceMeters ⟨0, 0⟩ ⟨0, 180⟩ = distanceMeters ⟨0, 180⟩ ⟨0, 0⟩ := by
  have h := distanceMeters_spec ⟨0, 0⟩ ⟨0, 180⟩
    (by constructor <;> norm_num) (by constructor <;> norm_num)
  exact ⟨h.1, h.2.1⟩

theorem find?_map_key (l : List Session) (sid : ℕ) (f : Session → Session)
    (hf : ∀ s, (f s).sessionId = s.sessionId) :
    (l.map (fun s => if s.sessionId == sid then f s else s)).find?
        (fun s => s.sessionId == sid)
      = (l.find? (fun s => s.sessionId == sid)).map f := by
  induction l with
  | nil => rfl
  | cons a l ih =>
    simp only [List.map_cons]
    cases hb : (a.sessionId == sid) with
    | true =>
      have h1 : (if true = true then f a else a) = f a := if_pos rfl
      have h2 : ((f a).sessionId == sid) = true := by rw [hf a]; exact hb
      rw [h1, @List.find?_cons_of_pos Session (fun s => s.sessionId == sid)
          (f a) _ h2,
        @List.find?_cons_of_pos Session (fun s => s.sessionId == sid) a _ hb,
        Option.map_some']
    | false =>
      have h1 : (if false = true then f a else a) = a := if_neg (by simp)
      have h2 : ¬ ((a.sessionId == sid) = true) := by simp [hb]
      rw [h1, @List.find?_cons_of_neg Session (fun s => s.sessionId == sid)
          a _ h2,
        @List.find?_cons_of_neg Session (fun s => s.sessionId == sid) a _ h2,
        ih]

theorem getSession_setSession (st : SessionStore) (sid : ℕ)
    (f : Session → Session) (hf : ∀ s, (f s).sessionId = s.sessionId) :
    getSession (setSession st sid f) sid = (getSession st sid).map f :=
  find?_map_key st.sessions sid f hf

theorem moveUpdate_sessionId (pos : Coordinate) (ts : ℤ) (s : Session) :
    (moveUpdate pos ts s).sessionId = s.sessionId := rfl

theorem closeUpdate_sessionId (epos : Coordinate) (now : ℤ) (s : Session) :
    (closeUpdate epos now s).sessionId = s.sessionId := rfl

theorem recordMovement_stale (st : SessionStore) (sid : ℕ) (s : Session)
    (pos : Coordinate) (ts : ℤ) (hg : getSession st sid = some s)
    (hc : s.state ≠ SessionState.Closed) (hts : ts ≤ s.lastSeenTimestamp) :
    recordMovement st sid pos ts = .ok (st, .rejected) := by
  simp [recordMovement, hg, hc, hts]

theorem recordMovement_accept (st : SessionStore) (sid : ℕ) (s : Session)
    (pos : Coordinate) (ts : ℤ) (hg : getSession st sid = some s)
    (hc : s.state ≠ SessionState.Closed) (hts : s.lastSeenTimestamp < ts) :
    recordMovement st sid pos ts
      = .ok (setSession st sid (moveUpdate pos ts),
          .accepted (haversine s.lastPosition pos)) := by
  simp [recordMovement, hg, hc, not_le.mpr hts]

theorem active_ne_closed {s : Session} (ha : s.state = SessionState.Active) :
    s.state ≠ SessionState.Closed := by
  rw [ha]; exact fun h => SessionState.noConfusion h

theorem ingest_accepted (es : EngineState) (sid : ℕ) (s : Session)
    (pos : Coordinate) (ts : ℤ) (date : ℕ)
    (hg : getSession es.store sid = some s) (ha : s.state = SessionState.Active)
    (hv : validCoordinate pos) (hts : s.lastSeenTimestamp < ts) :
    ingestorUpdate es sid pos ts date
      = .ok ({ es with
               store := setSession es.store sid (moveUpdate pos ts),
               statuses := (evaluate es.registry es.assigns s.employeeId pos
                 date ts es.statuses).1,
               polylog := (maybeAppend es.polylog sid pos ts).1 },
          ⟨true, (evaluate es.registry es.assigns s.employeeId pos date ts
              es.statuses).2,
            (maybeAppend es.polylog sid pos ts).2⟩) := by
  simp [ingestorUpdate, hg, active_ne_closed ha, hv,
    recordMovement_accept es.store sid s pos ts hg (active_ne_closed ha) hts]

theorem ingest_stale (es : EngineState) (sid : ℕ) (s : Session)
    (pos : Coordinate) (ts : ℤ) (date : ℕ)
    (hg : getSession es.store sid = some s) (ha : s.state = SessionState.Active)
    (hv : validCoordinate pos) (hts : ts ≤ s.lastSeenTimestamp) :
    ingestorUpdate es sid pos ts date = .ok (es, ⟨false, [], false⟩) := by
  simp [ingestorUpdate, hg, active_ne_closed ha, hv,
    recordMovement_stale es.store sid s pos ts hg (active_ne_closed ha) hts]

/-- C2: re-applying a location update with the same sessionId and timestamp is
a no-op: `recordMovement` rejects (returning the rejected/zero-delta result
and leaving the store unchanged) any update whose timestamp is not strictly
greater than the session's last-seen timestamp, and at the engine level a
second application of an accepted update returns a non-error result with
`accepted = false`, no newly-entered geofences, no polyline append, and an
unchanged engine state. -/
theorem duplicate_update_noop (es : EngineState) (sid : ℕ) (s : Session)
    (pos : Coordinate) (ts : ℤ) (date : ℕ)
    (hg : getSession es.store sid = some s) (ha : s.state = SessionState.Active)
    (hv : validCoordinate pos) (hts : s.lastSeenTimestamp < ts) :
    (∀ st2 s2 p2, getSession st2 sid = some s2 →
      s2.state ≠ SessionState.Closed → ts ≤ s2.lastSeenTimestamp →
      recordMovement st2 sid p2 ts = .ok (st2, .rejected)) ∧
    ∃ es1 r1, ingestorUpdate es sid pos ts date = .ok (es1, r1) ∧
      r1.accepted = true ∧
      ingestorUpdate es1 sid pos ts date = .ok (es1, ⟨false, [], false⟩) := by
  constructor
  · exact fun st2 s2 p2 hg2 hc2 hts2 =>
      recordMovement_stale st2 sid s2 p2 ts hg2 hc2 hts2
  · refine ⟨_, _, ingest_accepted es sid s pos ts date hg ha hv hts, rfl, ?_⟩
    have hg1 : getSession (setSession es.store sid (moveUpdate pos ts)) sid
        = some (moveUpdate pos ts s) := by
      rw [getSession_setSession _ _ _ (moveUpdate_sessionId pos ts), hg]
      rfl
    exact ingest_stale _ sid (moveUpdate pos ts s) pos ts date hg1 ha hv
      (le_refl ts)

/-- Witness for C2: a concrete engine with one active session accepts an
update at t=10 and treats its replay as a silent no-op. -/
theorem duplicate_update_noop_witness :
    ∃ es1 r1,
      ingestorUpdate ⟨⟨[newSession 0 1 ⟨0, 0⟩ 0], 1⟩, fun _ => GStatus.Pending,
          [], [], fun _ => ⟨⟨0, 0⟩, 150⟩⟩ 0 ⟨0, 0⟩ 10 0 = .ok (es1, r1) ∧
      r1.accepted = true ∧
      ingestorUpdate es1 0 ⟨0, 0⟩ 10 0 = .ok (es1, ⟨false, [], false⟩) :=
  (duplicate_update_noop ⟨⟨[newSession 0 1 ⟨0, 0⟩ 0], 1⟩,
    fun _ => GStatus.Pending, [], [], fun _ => ⟨⟨0, 0⟩, 150⟩⟩ 0
    (newSession 0 1 ⟨0, 0⟩ 0) ⟨0, 0⟩ 10 0 rfl rfl
    (by constructor <;> norm_num) (by decide)).2

/-- C7: once `closeSession` succeeds on an Active session, the session is
Closed: every subsequent update-location ingestion for that sessionId fails
with `SessionClosed` (as does `recordMovement` itself, leaving the session
unchanged since an error mutates nothing), and a second `closeSession` fails
with `SessionAlreadyClosed`. -/
theorem closeSession_then_fail (st : SessionStore) (sid : ℕ) (s : Session)
    (epos : Coordinate) (now : ℤ)
    (hg : getSession st sid = some s) (ha : s.state = SessionState.Active) :
    closeSession st sid epos now
      = .ok (setSession st sid (closeUpdate epos now),
          closeUpdate epos now s) ∧
    (∀ es pos ts date, es.store = setSession st sid (closeUpdate epos now) →
      ingestorUpdate es sid pos ts date = .error .SessionClosed) ∧
    (∀ pos ts, recordMovement (setSession st sid (closeUpdate epos now)) sid
      pos ts = .error .SessionClosed) ∧
    (∀ epos2 now2,
      closeSession (setSession st sid (closeUpdate epos now)) sid epos2 now2
        = .error .SessionAlreadyClosed) := by
  have hg1 : getSession (setSession st sid (closeUpdate epos now)) sid
      = some (closeUpdate epos now s) := by
    rw [getSession_setSession _ _ _ (closeUpdate_sessionId epos now), hg]
    rfl
  refine ⟨?_, ?_, ?_, ?_⟩
  · simp [closeSession, hg, active_ne_closed ha]
  · intro es pos ts date hes
    simp [ingestorUpdate, hes, hg1, closeUpdate]
  · intro pos ts
    simp [recordMovement, hg1, closeUpdate]
  · intro epos2 now2
    simp [closeSession, hg1, closeUpdate]

/-- Witness for C7: closing the one active session of a concrete store
succeeds, and a second close fails with `SessionAlreadyClosed`. -/
theorem closeSession_then_fail_witness :
    closeSession ⟨[newSession 0 1 ⟨0, 0⟩ 0], 1⟩ 0 ⟨0, 0⟩ 100
      = .ok (setSession ⟨[newSession 0 1 ⟨0, 0⟩ 0], 1⟩ 0
          (closeUpdate ⟨0, 0⟩ 100),
          closeUpdate ⟨0, 0⟩ 100 (newSession 0 1 ⟨0, 0⟩ 0)) ∧
    ∀ epos2 now2,
      closeSession (setSession ⟨[newSession 0 1 ⟨0, 0⟩ 0], 1⟩ 0
        (closeUpdate ⟨0, 0⟩ 100)) 0 epos2 now2
        = .error .SessionAlreadyClosed := by
  have h := closeSession_then_fail ⟨[newSession 0 1 ⟨0, 0⟩ 0], 1⟩ 0
    (newSession 0 1 ⟨0, 0⟩ 0) ⟨0, 0⟩ 100 rfl rfl
  exact ⟨h.1, h.2.2.2⟩

/-- C4: in a `LocationIngestor.update` invocation on an Active session with
valid coordinates, the geofence evaluation runs exactly when
`recordMovement` accepts the update: a stale-rejected update stops ingestion
with the engine state unchanged — no geofence check, no polyline append — and
an accepted update always runs `GeofenceEngine.evaluate` and
`PolylineLog.maybeAppend`, regardless of whether the polyline rate limit
allows the append. -/
theorem ingest_evaluates_iff_accepted (es : EngineState) (sid : ℕ)
    (s : Session) (pos : Coordinate) (ts : ℤ) (date : ℕ)
    (hg : getSession es.store sid = some s) (ha : s.state = SessionState.Active)
    (hv : validCoordinate pos) :
    (ts ≤ s.lastSeenTimestamp →
      ingestorUpdate es sid pos ts date = .ok (es, ⟨false, [], false⟩)) ∧
    (s.lastSeenTimestamp < ts →
      ingestorUpdate es sid pos ts date
        = .ok ({ es with
                 store := setSession es.store sid (moveUpdate pos ts),
                 statuses := (evaluate es.registry es.assigns s.employeeId pos
                   date ts es.statuses).1,
                 polylog := (maybeAppend es.polylog sid pos ts).1 },
            ⟨true, (evaluate es.registry es.assigns s.employeeId pos date ts
                es.statuses).2,
              (maybeAppend es.polylog sid pos ts).2⟩)) :=
  ⟨fun hts => ingest_stale es sid s pos ts date hg ha hv hts,
   fun hts => ingest_accepted es sid s pos ts date hg ha hv hts⟩

/-- Witness for C4: a stale update (timestamp equal to the session's
last-seen timestamp) on a concrete engine is ingested as a non-error no-op
with no geofence check and no polyline append. -/
theorem ingest_evaluates_iff_accepted_witness :
    ingestorUpdate ⟨⟨[newSession 0 1 ⟨0, 0⟩ 5], 1⟩, fun _ => GStatus.Pending,
        [], [], fun _ => ⟨⟨0, 0⟩, 150⟩⟩ 0 ⟨0, 0⟩ 5 0
      = .ok (⟨⟨[newSession 0 1 ⟨0, 0⟩ 5], 1⟩, fun _ => GStatus.Pending,
          [], [], fun _ => ⟨⟨0, 0⟩, 150⟩⟩, ⟨false, [], false⟩) :=
  (ingest_evaluates_iff_accepted ⟨⟨[newSession 0 1 ⟨0, 0⟩ 5], 1⟩,
    fun _ => GStatus.Pending, [], [], fun _ => ⟨⟨0, 0⟩, 150⟩⟩ 0
    (newSession 0 1 ⟨0, 0⟩ 5) ⟨0, 0⟩ 5 0 rfl rfl
    (by constructor <;> norm_num)).1 (by decide)

theorem startSession_ok_inv (st st' : SessionStore) (emp sid : ℕ)
    (pos : Coordinate) (now : ℤ)
    (h : startSession st emp pos now = .ok (st', sid)) :
    activeSessionFor st emp = none ∧
    st' = ⟨newSession st.nextId emp pos now :: st.sessions, st.nextId + 1⟩ ∧
    sid = st.nextId := by
  cases ha : activeSessionFor st emp with
  | some s =>
    rw [startSession, ha] at h
    exact Except.noConfusion h
  | none =>
    rw [startSession, ha] at h
    simp only [Except.ok.injEq, Prod.mk.injEq] at h
    exact ⟨rfl, h.1.symm, h.2.symm⟩

theorem recordMovement_ok_inv (st st' : SessionStore) (sid : ℕ)
    (pos : Coordinate) (ts : ℤ) (r : MovementResult)
    (h : recordMovement st sid pos ts = .ok (st', r)) :
    st' = st ∨ st' = setSession st sid (moveUpdate pos ts) := by
  cases hg : getSession st sid with
  | none =>
    simp only [recordMovement, hg] at h
    exact Except.noConfusion h
  | some s =>
    simp only [recordMovement, hg] at h
    by_cases hc : s.state = SessionState.Closed
    · rw [if_pos hc] at h
      exact Except.noConfusion h
    · rw [if_neg hc] at h
      by_cases hts : ts ≤ s.lastSeenTimestamp
      · rw [if_pos hts] at h
        simp only [Except.ok.injEq, Prod.mk.injEq] at h
        exact Or.inl h.1.symm
      · rw [if_neg hts] at h
        simp only [Except.ok.injEq, Prod.mk.injEq] at h
        exact Or.inr h.1.symm

theorem closeSession_ok_inv (st st' : SessionStore) (sid : ℕ)
    (pos : Coordinate) (now : ℤ) (s' : Session)
    (h : closeSession st sid pos now = .ok (st', s')) :
    st' = setSession st sid (closeUpdate pos now) := by
  cases hg : getSession st sid with
  | none =>
    simp only [closeSession, hg] at h
    exact Except.noConfusion h
  | some s =>
    simp only [closeSession, hg] at h
    by_cases hc : s.state = SessionState.Closed
    · rw [if_pos hc] at h
      exact Except.noConfusion h
    · rw [if_neg hc] at h
      simp only [Except.ok.injEq, Prod.mk.injEq] at h
      exact h.1.symm

theorem countActive_setSession_move (st : SessionStore) (sid emp : ℕ)
    (pos : Coordinate) (ts : ℤ) :
    countActive (setSession st sid (moveUpdate pos ts)) emp
      = countActive st emp := by
  unfold countActive setSession
  rw [List.countP_map]
  exact List.countP_congr (fun s _ => by
    by_cases hs : (s.sessionId == sid) = true
    · simp [Function.comp, hs, moveUpdate]
    · simp [Function.comp, hs])

theorem countActive_setSession_close (st : SessionStore) (sid emp : ℕ)
    (pos : Coordinate) (now : ℤ) :
    countActive (setSession st sid (closeUpdate pos now)) emp
      ≤ countActive st emp := by
  unfold countActive setSession
  rw [List.countP_map]
  exact List.countP_mono_left (fun s _ hp => by
    by_cases hs : (s.sessionId == sid) = true
    · simp [Function.comp, hs, closeUpdate] at hp
    · simpa [Function.comp, hs] using hp)

theorem reachable_count_le_one (st : SessionStore) (hr : Reachable st) :
    ∀ emp, countActive st emp ≤ 1 := by
  induction hr with
  | init =>
    intro emp
    simp [countActive, emptyStore]
  | start st0 st1 emp0 pos now sid h0 heq ih =>
    intro emp
    obtain ⟨hnone, hst1, -⟩ := startSession_ok_inv st0 st1 emp0 sid pos now heq
    subst hst1
    unfold countActive
    simp only [List.countP_cons]
    by_cases he : emp0 = emp
    · subst he
      have hzero : st0.sessions.countP
          (fun s => s.employeeId == emp0 &&
            decide (s.state = SessionState.Active)) = 0 :=
        List.countP_eq_zero.mpr (fun a hmem =>
          List.find?_eq_none.mp hnone a hmem)
      rw [hzero]
      simp [newSession]
    · have hfalse : ((newSession st0.nextId emp0 pos now).employeeId == emp &&
          decide ((newSession st0.nextId emp0 pos now).state
            = SessionState.Active)) = false := by
        simp [newSession, Nat.beq_eq_true_eq, he]
      rw [hfalse]
      simpa using ih emp
  | move st0 st1 sid pos ts r h0 heq ih =>
    intro emp
    rcases recordMovement_ok_inv st0 st1 sid pos ts r heq with h | h
    · subst h; exact ih emp
    · subst h
      rw [countActive_setSession_move]
      exact ih emp
  | close st0 st1 sid pos now s h0 heq ih =>
    intro emp
    have h := closeSession_ok_inv st0 st1 sid pos now s heq
    subst h
    exact le_trans (countActive_setSession_close st0 sid emp pos now) (ih emp)

/-- C6: at every reachable store each employee has at most one Active
session; `startSession` fails with `SessionAlreadyActive` exactly when the
employee already has an Active session, and otherwise creates a fresh session
in Active state with start time now, the given start position and distance 0 —
so the invariant is preserved by every operation. -/
theorem one_active_session_invariant (st : SessionStore) (emp : ℕ)
    (pos : Coordinate) (now : ℤ) (hr : Reachable st) :
    countActive st emp ≤ 1 ∧
    (startSession st emp pos now = .error .SessionAlreadyActive ↔
      (activeSessionFor st emp).isSome) ∧
    (∀ st' sid, startSession st emp pos now = .ok (st', sid) →
      sid = st.nextId ∧
      getSession st' sid = some (newSession sid emp pos now) ∧
      (newSession sid emp pos now).state = SessionState.Active ∧
      (newSession sid emp pos now).startTime = now ∧
      (newSession sid emp pos now).startPos = pos ∧
      (newSession sid emp pos now).distance = 0) := by
  refine ⟨reachable_count_le_one st hr emp, ?_, ?_⟩
  · cases ha : activeSessionFor st emp with
    | some s => simp [startSession, ha]
    | none => simp [startSession, ha]
  · intro st' sid h
    obtain ⟨-, hst', hsid⟩ := startSession_ok_inv st st' emp sid pos now h
    subst hst'
    subst hsid
    refine ⟨rfl, ?_, rfl, rfl, rfl, rfl⟩
    simp [getSession, newSession]

/-- Witness for C6: the store reached by one successful check-in has at most
one Active session for that employee, and a second check-in for the same
employee fails with `SessionAlreadyActive`. -/
theorem one_active_session_invariant_witness :
    countActive ⟨[newSession 0 1 ⟨0, 0⟩ 0], 1⟩ 1 ≤ 1 ∧
    (startSession ⟨[newSession 0 1 ⟨0, 0⟩ 0], 1⟩ 1 ⟨0, 0⟩ 5
        = .error .SessionAlreadyActive ↔
      (activeSessionFor ⟨[newSession 0 1 ⟨0, 0⟩ 0], 1⟩ 1).isSome) := by
  have h := one_active_session_invariant ⟨[newSession 0 1 ⟨0, 0⟩ 0], 1⟩ 1
    ⟨0, 0⟩ 5
    (Reachable.start emptyStore ⟨[newSession 0 1 ⟨0, 0⟩ 0], 1⟩ 1 ⟨0, 0⟩ 0 0
      Reachable.init rfl)
  exact ⟨h.1, h.2.1⟩

theorem evalLoop_entered_preserved (registry : ℕ → GeoCircle)
    (pos : Coordinate) (now : ℤ) (l : List GeofenceAssignment)
    (st : ℕ → GStatus) (i : ℕ) (t : ℤ) (h : st i = GStatus.Entered t) :
    (evalLoop registry pos now l st).1 i = GStatus.Entered t := by
  induction l generalizing st with
  | nil => exact h
  | cons a rest ih =>
    by_cases hc : st a.assignmentId = GStatus.Pending ∧
        contains (registry a.geofenceId) pos
    · simp only [evalLoop, if_pos hc]
      apply ih
      show (if i = a.assignmentId then GStatus.Entered now else st i)
        = GStatus.Entered t
      by_cases hi : i = a.assignmentId
      · exfalso
        rw [hi] at h
        rw [h] at hc
        exact GStatus.noConfusion hc.1
      · rw [if_neg hi]
        exact h
    · simp only [evalLoop, if_neg hc]
      exact ih st h

theorem evalLoop_fire_pending (registry : ℕ → GeoCircle) (pos : Coordinate)
    (now : ℤ) (l : List GeofenceAssignment) (st : ℕ → GStatus) (i : ℕ)
    (h : i ∈ (evalLoop registry pos now l st).2) : st i = GStatus.Pending := by
  induction l generalizing st with
  | nil => exact absurd h (List.not_mem_nil i)
  | cons a rest ih =>
    by_cases hc : st a.assignmentId = GStatus.Pending ∧
        contains (registry a.geofenceId) pos
    · simp only [evalLoop, if_pos hc] at h
      rcases List.mem_cons.mp h with hi | hi
    
      · rw [hi]
        exact hc.1
      · by_cases hia : i = a.assignmentId
        · rw [hia]
          exact hc.1
        · have := ih _ hi
          rw [if_neg hia] at this
          exact this
    · simp only [evalLoop, if_neg hc] at h
      exact ih st h

theorem evalLoop_mem_entered (registry : ℕ → GeoCircle) (pos : Coordinate)
    (now : ℤ) (l : List GeofenceAssignment) (st : ℕ → GStatus) (i : ℕ)
    (h : i ∈ (evalLoop registry pos now l st).2) :
    (evalLoop registry pos now l st).1 i = GStatus.Entered now := by
  induction l generalizing st with
  | nil => exact absurd h (List.not_mem_nil i)
  | cons a rest ih =>
    by_cases hc : st a.assignmentId = GStatus.Pending ∧
        contains (registry a.geofenceId) pos
    · simp only [evalLoop, if_pos hc] at h ⊢
      rcases List.mem_cons.mp h with hi | hi
      · apply evalLoop_entered_preserved
        rw [hi]
        simp
      · exact ih _ hi
    · simp only [evalLoop, if_neg hc] at h ⊢
      exact ih st h

theorem evalLoop_count_le_one (registry : ℕ → GeoCircle) (pos : Coordinate)
    (now : ℤ) (l : List GeofenceAssignment) (st : ℕ → GStatus) (i : ℕ) :
    (evalLoop registry pos now l st).2.count i ≤ 1 := by
  induction l generalizing st with
  | nil => simp [evalLoop]
  | cons a rest ih =>
    by_cases hc : st a.assignmentId = GStatus.Pending ∧
        contains (registry a.geofenceId) pos
    · simp only [evalLoop, if_pos hc, List.count_cons]
      by_cases hia : a.assignmentId = i
      · have hnot : i ∉ (evalLoop registry pos now rest
            (fun j => if j = a.assignmentId then GStatus.Entered now
              else st j)).2 := by
          intro hmem
          have := evalLoop_fire_pending registry pos now rest _ i hmem
          rw [← hia, if_pos rfl] at this
          exact GStatus.noConfusion this
        rw [List.count_eq_zero.mpr hnot]
        simp [hia]
      · simpa [hia] using ih _
    · simp only [evalLoop, if_neg hc]
      exact ih st

theorem runEvals_entered_preserved (registry : ℕ → GeoCircle)
    (assigns : List GeofenceAssignment) (emp date : ℕ)
    (ups : List (Coordinate × ℤ)) (st : ℕ → GStatus) (i : ℕ) (t : ℤ)
    (h : st i = GStatus.Entered t) :
    (runEvals registry assigns emp date ups st).1 i = GStatus.Entered t := by
  induction ups generalizing st with
  | nil => exact h
  | cons u rest ih =>
    obtain ⟨pos, now⟩ := u
    simp only [runEvals]
    exact ih _ (evalLoop_entered_preserved registry pos now
      (assignmentsFor assigns emp date) st i t h)

theorem runEvals_entered_no_fires (registry : ℕ → GeoCircle)
    (assigns : List GeofenceAssignment) (emp date : ℕ)
    (ups : List (Coordinate × ℤ)) (st : ℕ → GStatus) (i : ℕ) (t : ℤ)
    (h : st i = GStatus.Entered t) :
    countFires i (runEvals registry assigns emp date ups st).2 = 0 := by
  induction ups generalizing st with
  | nil => simp [runEvals, countFires]
  | cons u rest ih =>
    obtain ⟨pos, now⟩ := u
    simp only [runEvals, countFires, List.map_cons, List.sum_cons]
    have h0 : (evaluate registry assigns emp pos date now st).2.count i = 0 :=
      List.count_eq_zero.mpr (fun hmem => by
        have := evalLoop_fire_pending registry pos now
          (assignmentsFor assigns emp date) st i hmem
        rw [h] at this
        exact GStatus.noConfusion this)
    rw [h0]
    have h1 := ih _ (evalLoop_entered_preserved registry pos now
      (assignmentsFor assigns emp date) st i t h)
    simpa [countFires] using h1

theorem runEvals_pending_fires_le_one (registry : ℕ → GeoCircle)
    (assigns : List GeofenceAssignment) (emp date : ℕ)
    (ups : List (Coordinate × ℤ)) (st : ℕ → GStatus) (i : ℕ)
    (h : st i = GStatus.Pending) :
    countFires i (runEvals registry assigns emp date ups st).2 ≤ 1 := by
  induction ups generalizing st with
  | nil => simp [runEvals, countFires]
  | cons u rest ih =>
    obtain ⟨pos, now⟩ := u
    simp only [runEvals, countFires, List.map_cons, List.sum_cons]
    by_cases hm : i ∈ (evaluate registry assigns emp pos date now st).2
    · have h1 := evalLoop_mem_entered registry pos now
        (assignmentsFor assigns emp date) st i hm
      have h2 : countFires i (runEvals registry assigns emp date rest
          (evaluate registry assigns emp pos date now st).1).2 = 0 :=
        runEvals_entered_no_fires registry assigns emp date rest
          (evaluate registry assigns emp pos date now st).1 i now h1
      have h3 : (evaluate registry assigns emp pos date now st).2.count i ≤ 1 :=
        evalLoop_count_le_one registry pos now
          (assignmentsFor assigns emp date) st i
      simp only [countFires] at h2
      omega
    · have h0 : (evaluate registry assigns emp pos date now st).2.count i = 0 :=
        List.count_eq_zero.mpr hm
      rw [h0]
      cases hstat : (evaluate registry assigns emp pos date now st).1 i with
      | Pending => simpa [countFires] using ih _ hstat
      | Entered t =>
        have := runEvals_entered_no_fires registry assigns emp date rest _
          i t hstat
        simp only [countFires] at this
        omega

/-- C1: over any day's sequence of evaluations, an assignment whose status
starts Pending is reported as newly entered at most once — even if the
position enters, leaves and re-enters the circle — and an assignment whose
status is Entered keeps exactly its recorded timestamp forever (no evaluation
ever moves a status from Entered back to Pending, and it never re-fires). -/
theorem entered_at_most_once (registry : ℕ → GeoCircle)
    (assigns : List GeofenceAssignment) (emp date : ℕ)
    (ups : List (Coordinate × ℤ)) (st0 : ℕ → GStatus) (i : ℕ) :
    (st0 i = GStatus.Pending →
      countFires i (runEvals registry assigns emp date ups st0).2 ≤ 1) ∧
    (∀ t, st0 i = GStatus.Entered t →
      (runEvals registry assigns emp date ups st0).1 i = GStatus.Entered t ∧
      countFires i (runEvals registry assigns emp date ups st0).2 = 0) :=
  ⟨fun h => runEvals_pending_fires_le_one registry assigns emp date ups st0 i h,
   fun t h => ⟨runEvals_entered_preserved registry assigns emp date ups st0 i t h,
     runEvals_entered_no_fires registry assigns emp date ups st0 i t h⟩⟩

/-- Witness for C1: a pending assignment walked into the circle, out of it,
and back in again fires at most once. -/
theorem entered_at_most_once_witness :
    countFires 7 (runEvals (fun _ => ⟨⟨0, 0⟩, 150⟩) [⟨7, 1, 3, 0⟩] 1 0
      [(⟨0, 0⟩, 10), (⟨0, 180⟩, 20), (⟨0, 0⟩, 30)]
      (fun _ => GStatus.Pending)).2 ≤ 1 :=
  (entered_at_most_once (fun _ => ⟨⟨0, 0⟩, 150⟩) [⟨7, 1, 3, 0⟩] 1 0
    [(⟨0, 0⟩, 10), (⟨0, 180⟩, 20), (⟨0, 0⟩, 30)]
    (fun _ => GStatus.Pending) 7).1 rfl

theorem runEvals_single_entered (registry : ℕ → GeoCircle)
    (a : GeofenceAssignment) (emp date : ℕ) (ha : a.employeeId = emp)
    (hd : a.assignedDate = date) (ups : List (Coordinate × ℤ))
    (st : ℕ → GStatus) (t : ℤ) (h : st a.assignmentId = GStatus.Entered t) :
    (runEvals registry [a] emp date ups st).2
      = ups.map (fun _ => ([] : List ℕ)) := by
  have hAF : assignmentsFor [a] emp date = [a] := by
    simp [assignmentsFor, ha, hd]
  induction ups generalizing st with
  | nil => rfl
  | cons u rest ih =>
    obtain ⟨pos, now⟩ := u
    have hcond : ¬ (st a.assignmentId = GStatus.Pending ∧
        contains (registry a.geofenceId) pos) := fun hc => by
      rw [h] at hc
      exact GStatus.noConfusion hc.1
    simp only [runEvals, evaluate, hAF, evalLoop, if_neg hcond, List.map_cons]
    exact congrArg (List.cons []) (ih st h)

theorem runEvals_single_first_fire (registry : ℕ → GeoCircle)
    (a : GeofenceAssignment) (emp date : ℕ) (ha : a.employeeId = emp)
    (hd : a.assignedDate = date) (ups : List (Coordinate × ℤ))
    (st : ℕ → GStatus) (h : st a.assignmentId = GStatus.Pending) :
    (runEvals registry [a] emp date ups st).2
      = expectedReports (registry a.geofenceId) a.assignmentId
          (ups.map Prod.fst) := by
  have hAF : assignmentsFor [a] emp date = [a] := by
    simp [assignmentsFor, ha, hd]
  induction ups generalizing st with
  | nil => rfl
  | cons u rest ih =>
    obtain ⟨pos, now⟩ := u
    by_cases hin : contains (registry a.geofenceId) pos
    · have hcond : st a.assignmentId = GStatus.Pending ∧
          contains (registry a.geofenceId) pos := ⟨h, hin⟩
      simp only [runEvals, evaluate, hAF, evalLoop, if_pos hcond,
        List.map_cons, expectedReports, if_pos hin]
      have hst1 : (fun j => if j = a.assignmentId then GStatus.Entered now
          else st j) a.assignmentId = GStatus.Entered now := by simp
      rw [runEvals_single_entered registry a emp date ha hd rest _ now hst1,
        List.map_map]
      rfl
    · have hcond : ¬ (st a.assignmentId = GStatus.Pending ∧
          contains (registry a.geofenceId) pos) := fun hc => hin hc.2
      simp only [runEvals, evaluate, hAF, evalLoop, if_neg hcond,
        List.map_cons, expectedReports, if_neg hin]
      exact congrArg (List.cons []) (ih st h)

/-- C8: `contains` holds exactly when `distanceMeters` of center and point is
at most the radius, boundary inclusive; and walking a single Pending
assignment along any path, the newly-entered event fires exactly on the first
step whose position the circle contains — a singleton report there, empty
reports before and ever after. -/
theorem contains_and_first_entry :
    (∀ (c : GeoCircle) (pnt : Coordinate), validCoordinate c.center →
      validCoordinate pnt →
      (contains c pnt ↔
        ∃ d, distanceMeters c.center pnt = .ok d ∧ d ≤ c.radiusM)) ∧
    (∀ (registry : ℕ → GeoCircle) (a : GeofenceAssignment) (emp date : ℕ)
      (ups : List (Coordinate × ℤ)) (st : ℕ → GStatus),
      a.employeeId = emp → a.assignedDate = date →
      st a.assignmentId = GStatus.Pending →
      (runEvals registry [a] emp date ups st).2
        = expectedReports (registry a.geofenceId) a.assignmentId
            (ups.map Prod.fst)) := by
  constructor
  · intro c pnt hc hp
    constructor
    · intro hcon
      exact ⟨haversine c.center pnt,
        by rw [distanceMeters, if_pos ⟨hc, hp⟩], hcon⟩
    · rintro ⟨d, hok, hle⟩
      rw [distanceMeters, if_pos ⟨hc, hp⟩] at hok
      have hde : haversine c.center pnt = d := by simpa using hok
      show haversine c.center pnt ≤ c.radiusM
      rw [hde]
      exact hle
  · intro registry a emp date ups st ha hd h
    exact runEvals_single_first_fire registry a emp date ha hd ups st h

/-- Witness for C8: walking from the antipodal point to the center of a
150 m circle, the single Pending assignment fires exactly on the second
step — the first position inside. -/
theorem contains_and_first_entry_witness :
    (runEvals (fun _ => ⟨⟨0, 0⟩, 150⟩) [⟨7, 1, 3, 0⟩] 1 0
      [(⟨0, 180⟩, 10), (⟨0, 0⟩, 20)] (fun _ => GStatus.Pending)).2
      = [[], [7]] := by
  have h := contains_and_first_entry.2 (fun _ => ⟨⟨0, 0⟩, 150⟩) ⟨7, 1, 3, 0⟩
    1 0 [(⟨0, 180⟩, 10), (⟨0, 0⟩, 20)] (fun _ => GStatus.Pending) rfl rfl rfl
  rw [h]
  have hout : ¬ contains ⟨⟨0, 0⟩, 150⟩ ⟨0, 180⟩ := by
    show ¬ (haversine ⟨0, 0⟩ ⟨0, 180⟩ ≤ (150 : ℝ))
    rw [haversine_comm]
    exact not_le.mpr haversine_antipodal_gt
  have hinc : contains ⟨⟨0, 0⟩, 150⟩ ⟨0, 0⟩ := by
    show haversine ⟨0, 0⟩ ⟨0, 0⟩ ≤ (150 : ℝ)
    rw [haversine_self]
    norm_num
  simp only [expectedReports, List.map_cons, List.map_nil, if_neg hout,
    if_pos hinc]

theorem pointsFor_append (log l2 : List PolylinePoint) (sid : ℕ) :
    pointsFor (log ++ l2) sid = pointsFor log sid ++ pointsFor l2 sid :=
  List.filter_append log l2

theorem maybeAppend_first (log : List PolylinePoint) (sid : ℕ)
    (pos : Coordinate) (ts : ℤ) (hl : lastPointFor log sid = none) :
    maybeAppend log sid pos ts = (log ++ [⟨sid, 0, pos, ts⟩], true) := by
  simp [maybeAppend, hl]

theorem maybeAppend_due (log : List PolylinePoint) (sid : ℕ)
    (pos : Coordinate) (ts : ℤ) (lastP : PolylinePoint)
    (hl : lastPointFor log sid = some lastP)
    (hts : POLYLINE_MIN_INTERVAL ≤ ts - lastP.timestamp) :
    maybeAppend log sid pos ts
      = (log ++ [⟨sid, lastP.seq + 1, pos, ts⟩], true) := by
  simp [maybeAppend, hl, hts]

theorem maybeAppend_early (log : List PolylinePoint) (sid : ℕ)
    (pos : Coordinate) (ts : ℤ) (lastP : PolylinePoint)
    (hl : lastPointFor log sid = some lastP)
    (hts : ¬ POLYLINE_MIN_INTERVAL ≤ ts - lastP.timestamp) :
    maybeAppend log sid pos ts = (log, false) := by
  simp [maybeAppend, hl, hts]

theorem spaced_maybeAppend (log : List PolylinePoint) (sid2 : ℕ)
    (pos : Coordinate) (ts : ℤ) (h : ∀ sid, spaced (pointsFor log sid)) :
    ∀ sid, spaced (pointsFor (maybeAppend log sid2 pos ts).1 sid) := by
  intro sid
  cases hl : lastPointFor log sid2 with
  | none =>
    rw [maybeAppend_first log sid2 pos ts hl]
    simp only
    rw [pointsFor_append]
    by_cases hs : sid2 = sid
    · subst hs
      have hempty : pointsFor log sid2 = [] :=
        List.getLast?_eq_none_iff.mp hl
      have hpt : pointsFor [(⟨sid2, 0, pos, ts⟩ : PolylinePoint)] sid2
          = [⟨sid2, 0, pos, ts⟩] := by
        simp [pointsFor]
      rw [hempty, hpt, List.nil_append]
      exact List.chain'_singleton _
    · have hpt : pointsFor [(⟨sid2, 0, pos, ts⟩ : PolylinePoint)] sid = [] := by
        simp [pointsFor, hs]
      rw [hpt, List.append_nil]
      exact h sid
  | some lastP =>
    by_cases hts : POLYLINE_MIN_INTERVAL ≤ ts - lastP.timestamp
    · rw [maybeAppend_due log sid2 pos ts lastP hl hts]
      simp only
      rw [pointsFor_append]
      by_cases hs : sid2 = sid
      · subst hs
        have hpt : pointsFor [(⟨sid2, lastP.seq + 1, pos, ts⟩ :
            PolylinePoint)] sid2 = [⟨sid2, lastP.seq + 1, pos, ts⟩] := by
          simp [pointsFor]
        rw [hpt]
        refine List.chain'_append.mpr ⟨h sid2, List.chain'_singleton _, ?_⟩
        intro x hx y hy
        simp only [List.head?_cons, Option.mem_def, Option.some.injEq] at hy
        have hx2 : x = lastP := by
          have := Option.mem_def.mp hx
          rw [show (pointsFor log sid2).getLast? = some lastP from hl] at this
          exact (Option.some.inj this).symm
        subst hx2
        rw [← hy]
        exact hts
      · have hpt : pointsFor [(⟨sid2, lastP.seq + 1, pos, ts⟩ :
            PolylinePoint)] sid = [] := by
          simp [pointsFor, hs]
        rw [hpt, List.append_nil]
        exact h sid
    · rw [maybeAppend_early log sid2 pos ts lastP hl hts]
      exact h sid

theorem logReachable_spaced (log : List PolylinePoint) (h : LogReachable log) :
    ∀ sid, spaced (pointsFor log sid) := by
  induction h with
  | init =>
    intro sid
    simp [pointsFor, spaced]
  | app log0 sid2 pos ts h0 ih => exact spaced_maybeAppend log0 sid2 pos ts ih

/-- C5: in any polyline log built by `maybeAppend`, the points of each
session are pairwise at least `POLYLINE_MIN_INTERVAL` = 60 seconds apart by
timestamp; `maybeAppend` appends exactly when the session has no point yet or
its last point is at least 60 seconds older, returns whether it appended, and
leaves the log unchanged otherwise; and the unconditional checkout point is
the only other point — it touches no other session and every consecutive pair
except possibly the one ending at the checkout point stays 60 seconds
apart. -/
theorem polyline_rate_limit (log : List PolylinePoint) (h : LogReachable log)
    (sid : ℕ) (pos : Coordinate) (ts : ℤ) :
    (∀ sid2, spaced (pointsFor log sid2)) ∧
    ((maybeAppend log sid pos ts).2 = true ↔
      lastPointFor log sid = none ∨
        ∃ lastP, lastPointFor log sid = some lastP ∧
          POLYLINE_MIN_INTERVAL ≤ ts - lastP.timestamp) ∧
    ((maybeAppend log sid pos ts).2 = true →
      ∃ pt, (maybeAppend log sid pos ts).1 = log ++ [pt] ∧
        pt.sessionId = sid ∧ pt.timestamp = ts) ∧
    ((maybeAppend log sid pos ts).2 = false →
      (maybeAppend log sid pos ts).1 = log) ∧
    (∀ sid2, sid2 ≠ sid →
      pointsFor (recordCheckoutPoint log sid pos ts) sid2
        = pointsFor log sid2) ∧
    spaced ((pointsFor (recordCheckoutPoint log sid pos ts) sid).dropLast) := by
  refine ⟨logReachable_spaced log h, ?_, ?_, ?_, ?_, ?_⟩
  · cases hl : lastPointFor log sid with
    | none =>
      rw [maybeAppend_first log sid pos ts hl]
      simp
    | some lastP =>
      by_cases hts : POLYLINE_MIN_INTERVAL ≤ ts - lastP.timestamp
      · rw [maybeAppend_due log sid pos ts lastP hl hts]
        simp [hts]
      · rw [maybeAppend_early log sid pos ts lastP hl hts]
        simp only [Bool.false_eq_true, false_iff]
        push_neg
        refine ⟨fun hc => Option.noConfusion hc, ?_⟩
        intro p hp
        have hpl : lastP = p := Option.some.inj hp
        subst hpl
        exact not_le.mp hts
  · intro happ
    cases hl : lastPointFor log sid with
    | none =>
      rw [maybeAppend_first log sid pos ts hl]
      exact ⟨⟨sid, 0, pos, ts⟩, rfl, rfl, rfl⟩
    | some lastP =>
      by_cases hts : POLYLINE_MIN_INTERVAL ≤ ts - lastP.timestamp
      · rw [maybeAppend_due log sid pos ts lastP hl hts]
        exact ⟨⟨sid, lastP.seq + 1, pos, ts⟩, rfl, rfl, rfl⟩
      · rw [maybeAppend_early log sid pos ts lastP hl hts] at happ
        exact absurd happ (by simp)
  · intro happ
    cases hl : lastPointFor log sid with
    | none =>
      rw [maybeAppend_first log sid pos ts hl] at happ
      exact absurd happ (by simp)
    | some lastP =>
      by_cases hts : POLYLINE_MIN_INTERVAL ≤ ts - lastP.timestamp
      · rw [maybeAppend_due log sid pos ts lastP hl hts] at happ
        exact absurd happ (by simp)
      · rw [maybeAppend_early log sid pos ts lastP hl hts]
  · intro sid2 hne
    unfold recordCheckoutPoint
    rw [pointsFor_append]
    have hpt : pointsFor [(⟨sid, (pointsFor log sid).length, pos, ts⟩ :
        PolylinePoint)] sid2 = [] := by
      simp only [pointsFor, List.filter_cons, List.filter_nil]
      have : (((⟨sid, (pointsFor log sid).length, pos, ts⟩ :
          PolylinePoint)).sessionId == sid2) = false := by
        simp
        exact fun hc => absurd hc.symm hne
      rw [this]
      simp
    rw [hpt, List.append_nil]
  · unfold recordCheckoutPoint
    rw [pointsFor_append]
    have hpt : pointsFor [(⟨sid, (pointsFor log sid).length, pos, ts⟩ :
        PolylinePoint)] sid = [⟨sid, (pointsFor log sid).length, pos, ts⟩] := by
      simp [pointsFor]
    rw [hpt, List.dropLast_concat]
    exact logReachable_spaced log h sid

/-- Witness for C5: the first point of a session is appended; a second point
only 30 seconds later is refused and leaves the log unchanged; the session's
points are spaced. -/
theorem polyline_rate_limit_witness :
    spaced (pointsFor (maybeAppend [] 1 ⟨0, 0⟩ 0).1 1) ∧
    (maybeAppend (maybeAppend [] 1 ⟨0, 0⟩ 0).1 1 ⟨0, 0⟩ 30).1
      = (maybeAppend [] 1 ⟨0, 0⟩ 0).1 := by
  have h := polyline_rate_limit (maybeAppend [] 1 ⟨0, 0⟩ 0).1
    (LogReachable.app [] 1 ⟨0, 0⟩ 0 LogReachable.init) 1 ⟨0, 0⟩ 30
  exact ⟨h.1 1, h.2.2.2.1 rfl⟩

theorem pathSum_nonneg (p : Coordinate) (l : List Coordinate) :
    0 ≤ pathSum p l := by
  induction l generalizing p with
  | nil => exact le_refl 0
  | cons q rest ih =>
    simp only [pathSum]
    exact add_nonneg (haversine_nonneg p q) (ih q)

theorem pathSum_append (p : Coordinate) (l1 l2 : List Coordinate) :
    pathSum p (l1 ++ l2) = pathSum p l1 + pathSum (l1.getLastD p) l2 := by
  induction l1 generalizing p with
  | nil => simp [pathSum]
  | cons q rest ih =>
    simp only [List.cons_append, pathSum, List.getLastD_cons]
    rw [show rest.append l2 = rest ++ l2 from rfl, ih q]
    ring

theorem pathSum_prefix_le (p : Coordinate) (l : List Coordinate) (m n : ℕ)
    (hmn : m ≤ n) : pathSum p (l.take m) ≤ pathSum p (l.take n) := by
  have htake : l.take m ++ (l.take n).drop m = l.take n := by
    conv_rhs => rw [← List.take_append_drop m (l.take n)]
    rw [List.take_take, min_eq_left hmn]
  calc pathSum p (l.take m)
      ≤ pathSum p (l.take m)
          + pathSum ((l.take m).getLastD p) ((l.take n).drop m) :=
        le_add_of_nonneg_right (pathSum_nonneg _ _)
    _ = pathSum p (l.take m ++ (l.take n).drop m) :=
        (pathSum_append p (l.take m) ((l.take n).drop m)).symm
    _ = pathSum p (l.take n) := by rw [htake]

theorem runMovements_spec (st : SessionStore) (sid : ℕ) (s : Session)
    (ups : List (Coordinate × ℤ))
    (hg : getSession st sid = some s) (ha : s.state = SessionState.Active)
    (hchain : List.Chain (fun a b => a < b) s.lastSeenTimestamp
      (ups.map Prod.snd)) :
    ∃ stn sn, runMovements st sid ups = .ok stn ∧
      getSession stn sid = some sn ∧ sn.state = SessionState.Active ∧
      sn.distance = s.distance + pathSum s.lastPosition (ups.map Prod.fst) := by
  induction ups generalizing st s with
  | nil => exact ⟨st, s, rfl, hg, ha, by simp [pathSum]⟩
  | cons u rest ih =>
    obtain ⟨pos, ts⟩ := u
    simp only [List.map_cons, List.chain_cons] at hchain
    obtain ⟨hlt, hchain2⟩ := hchain
    have hrec := recordMovement_accept st sid s pos ts hg
      (active_ne_closed ha) hlt
    have hg1 : getSession (setSession st sid (moveUpdate pos ts)) sid
        = some (moveUpdate pos ts s) := by
      rw [getSession_setSession _ _ _ (moveUpdate_sessionId pos ts), hg]
      rfl
    obtain ⟨stn, sn, hrun, hgn, han, hdist⟩ :=
      ih (setSession st sid (moveUpdate pos ts)) (moveUpdate pos ts s) hg1 ha
        hchain2
    refine ⟨stn, sn, ?_, hgn, han, ?_⟩
    · simp only [runMovements, hrec, hrun]
    · rw [hdist]
      simp only [moveUpdate, List.map_cons, pathSum]
      ring

/-- C3: for an Active session started with distance 0 at its start position,
a sequence of updates with strictly increasing timestamps is fully accepted;
after every prefix of the sequence the cumulative distance equals the sum of
the haversine distances between consecutive accepted positions starting from
the session's start position, and the cumulative distance is non-decreasing
from prefix to prefix. -/
theorem distance_accumulates (st : SessionStore) (sid : ℕ) (s : Session)
    (ups : List (Coordinate × ℤ))
    (hg : getSession st sid = some s) (ha : s.state = SessionState.Active)
    (h0 : s.distance = 0) (hsp : s.lastPosition = s.startPos)
    (hchain : List.Chain (fun a b => a < b) s.lastSeenTimestamp
      (ups.map Prod.snd)) :
    (∀ n, ∃ stn sn, runMovements st sid (ups.take n) = .ok stn ∧
      getSession stn sid = some sn ∧ sn.state = SessionState.Active ∧
      sn.distance = pathSum s.startPos ((ups.take n).map Prod.fst)) ∧
    (∀ m n stm sm stn sn, m ≤ n →
      runMovements st sid (ups.take m) = .ok stm →
      getSession stm sid = some sm →
      runMovements st sid (ups.take n) = .ok stn →
      getSession stn sid = some sn →
      sm.distance ≤ sn.distance) := by
  have hchainTake : ∀ n, List.Chain (fun a b => a < b) s.lastSeenTimestamp
      ((ups.take n).map Prod.snd) := by
    intro n
    rw [List.map_take]
    have h2 : List.Chain' (fun a b => a < b)
        (s.lastSeenTimestamp :: ups.map Prod.snd) := hchain
    have h3 := h2.take (n + 1)
    rw [List.take_succ_cons] at h3
    exact h3
  have main : ∀ n, ∃ stn sn, runMovements st sid (ups.take n) = .ok stn ∧
      getSession stn sid = some sn ∧ sn.state = SessionState.Active ∧
      sn.distance = pathSum s.startPos ((ups.take n).map Prod.fst) := by
    intro n
    obtain ⟨stn, sn, h1, h2, h3, h4⟩ :=
      runMovements_spec st sid s (ups.take n) hg ha (hchainTake n)
    refine ⟨stn, sn, h1, h2, h3, ?_⟩
    rw [h4, h0, hsp, zero_add]
  refine ⟨main, ?_⟩
  intro m n stm sm stn sn hmn hrm hgm hrn hgn
  obtain ⟨stm2, sm2, h1, h2, h3, h4⟩ := main m
  obtain ⟨stn2, sn2, h1', h2', h3', h4'⟩ := main n
  rw [hrm] at h1
  rw [hrn] at h1'
  have estm : stm2 = stm := (Except.ok.inj h1).symm
  have estn : stn2 = stn := (Except.ok.inj h1').symm
  rw [estm] at h2
  rw [estn] at h2'
  rw [hgm] at h2
  rw [hgn] at h2'
  have esm : sm = sm2 := Option.some.inj h2
  have esn : sn = sn2 := Option.some.inj h2'
  rw [esm, esn, h4, h4', List.map_take, List.map_take]
  exact pathSum_prefix_le s.startPos (ups.map Prod.fst) m n hmn

/-- Witness for C3: two accepted same-position updates at t=10 and t=70 on a
fresh session run to completion with the distance given by the path sum. -/
theorem distance_accumulates_witness :
    ∃ stn sn, runMovements ⟨[newSession 0 1 ⟨0, 0⟩ 0], 1⟩ 0
        ([((⟨0, 0⟩ : Coordinate), (10 : ℤ)), (⟨0, 0⟩, 70)].take 2)
        = .ok stn ∧
      getSession stn 0 = some sn ∧ sn.state = SessionState.Active ∧
      sn.distance = pathSum (newSession 0 1 ⟨0, 0⟩ 0).startPos
        (([((⟨0, 0⟩ : Coordinate), (10 : ℤ)), (⟨0, 0⟩, 70)].take 2).map
          Prod.fst) :=
  (distance_accumulates ⟨[newSession 0 1 ⟨0, 0⟩ 0], 1⟩ 0
    (newSession 0 1 ⟨0, 0⟩ 0) [(⟨0, 0⟩, 10), (⟨0, 0⟩, 70)] rfl rfl rfl rfl
    (List.Chain.cons (by decide) (List.Chain.cons (by decide)
      List.Chain.nil))).1 2

theorem runWatch_chain (st : TrackState) (evts : List (ℤ × Coordinate)) :
    List.Chain (fun a b => UPDATE_INTERVAL_MS ≤ b - a) st.lastUpdateTime
      (runWatch st evts).2 := by
  induction evts generalizing st with
  | nil => exact List.Chain.nil
  | cons e rest ih =>
    obtain ⟨now, p⟩ := e
    by_cases hc : UPDATE_INTERVAL_MS ≤ now - st.lastUpdateTime
    · simp only [runWatch, watchStep, if_pos hc]
      exact List.Chain.cons hc (ih ⟨now, some p⟩)
    · simp only [runWatch, watchStep, if_neg hc]
      exact ih ⟨st.lastUpdateTime, some p⟩

/-- C10: in `UserTracking.jsx`, the geolocation watch callback sends a POST
to the update-location endpoint only when at least `UPDATE_INTERVAL_MS` =
10000 milliseconds of client time have elapsed since the last update it sent;
a position arriving sooner updates the on-screen marker but sends no request,
so any two consecutive sent client times are at least 10 seconds apart. -/
theorem userTracking_throttle (evts : List (ℤ × Coordinate)) :
    List.Chain' (fun a b => UPDATE_INTERVAL_MS ≤ b - a)
      (runWatch ⟨0, none⟩ evts).2 ∧
    (∀ st now p, (watchStep st now p).1.markerPos = some p ∧
      ((watchStep st now p).2 = true ↔
        UPDATE_INTERVAL_MS ≤ now - st.lastUpdateTime) ∧
      ((watchStep st now p).2 = false →
        (watchStep st now p).1.lastUpdateTime = st.lastUpdateTime)) := by
  constructor
  · have h : List.Chain' (fun a b => UPDATE_INTERVAL_MS ≤ b - a)
        ((0 : ℤ) :: (runWatch ⟨0, none⟩ evts).2) :=
      runWatch_chain ⟨0, none⟩ evts
    exact h.tail
  · intro st now p
    by_cases hc : UPDATE_INTERVAL_MS ≤ now - st.lastUpdateTime
    · refine ⟨?_, ?_, ?_⟩ <;> simp [watchStep, if_pos hc, hc]
    · refine ⟨?_, ?_, ?_⟩ <;> simp [watchStep, if_neg hc, hc]
